import Mathlib

/-!
# Verification of the Windows SearchIndex plugin
  (`dissect/target/plugins/os/windows/searchindex.py`)

Shallow embedding of the plugin's record-merging and WAL checkpoint-replay
logic, together with theorems settling the frozen specification claims.

Modelling conventions:
* Python `dict`s keyed by a numeric work identifier are association lists
  `List (Nat × α)`; `alookup` finds the first binding and `aset` replaces
  the first binding (or appends), matching Python dict semantics for the
  duplicate-free dicts the code builds.
* A property version (a Python dict mapping column names to values, plus the
  `"checkpointindex"` key) is a `Version` structure whose `fields` component
  is a total lookup function `String → Option NVal`.  Python's `dict.get`
  returns `None` both for a missing key and for a key stored as `None`, so
  the function representation is observationally exact.  The keys
  `"checkpointindex"` and `"latest"` never collide with property field names
  because field names are drawn from `PROPSTORE_INCLUDE_COLUMNS`, which
  contains neither.
* Fallible Python code (uncaught exceptions) is embedded in `Except PyErr`.
* Machine integers are `Nat`/`Int`; `int.from_bytes(_, "little")` is
  `int_from_bytes_le` over a byte list.
* The interactive debug statements in `_get_sqlite_records`
  (`print`/`input()` stepping, including the hard-coded `[3607]` subscripts)
  are I/O and are elided from the embedding.
-/

/-- Python exception kinds raised by the embedded code paths. -/
inductive PyErr
  | valueError
  | typeError
  | indexError
deriving DecidableEq, Repr

/-- A raw value as read from a database cell: blob, text, or integer. -/
inductive RawVal
  | bytes (bs : List Nat)
  | str (s : String)
  | int (n : Int)
deriving DecidableEq, Repr

/-- A normalized value: either a decoded file-time timestamp (kept as its
100ns tick count) or a raw value passed through unchanged. -/
inductive NVal
  | dt (ticks : Nat)
  | raw (v : RawVal)
deriving DecidableEq, Repr

/-- `WIN_DATETIME_FIELDS` from the source. -/
def WIN_DATETIME_FIELDS : List String :=
  ["LastModified",
   "System_Search_GatherTime",
   "System_DateModified",
   "System_DateCreated",
   "System_ActivityHistory_EndTime",
   "System_ActivityHistory_StartTime"]

/-- `PROPSTORE_INCLUDE_COLUMNS` from the source. -/
def PROPSTORE_INCLUDE_COLUMNS : List String :=
  ["WorkID",
   "System_Size",
   "System_DateModified",
   "System_DateCreated",
   "System_FileOwner",
   "System_ItemPathDisplay",
   "System_ItemType",
   "System_FileAttributes",
   "System_Search_AutoSummary",
   "System_Activity_ContentUri",
   "System_Activity_Description",
   "System_Activity_DisplayText",
   "System_ActivityHistory_StartTime",
   "System_ActivityHistory_EndTime",
   "System_ActivityHistory_AppId"]

/-- Python `int.from_bytes(bs, "little")`: little-endian byte decoding.
Accepts any length, including the empty sequence (which decodes to 0),
exactly as `int.from_bytes` does. -/
def int_from_bytes_le : List Nat → Nat
  | [] => 0
  | b :: bs => b + 256 * int_from_bytes_le bs

/-- Number of 100ns ticks from 1601-01-01 to 10000-01-01, the supremum of
file-time values representable as a Python `datetime`. -/
def winTicksSup : Nat := 2650467744000000000

/-- Modelled from the spec: the external `dissect.util.ts.wintimestamp`
conversion ("binary little-endian file-time → calendar timestamp", §4.2),
which is not part of this repository.  A calendar timestamp is represented
by its tick count; a tick count outside the representable calendar range
raises `ValueError` (the exception the call sites catch). -/
def wintimestamp (ticks : Nat) : Except PyErr Nat :=
  if ticks < winTicksSup then .ok ticks else .error .valueError

/-- First-match association-list lookup (Python `d[k]` / `k in d`). -/
def alookup {α : Type} : List (Nat × α) → Nat → Option α
  | [], _ => none
  | (k', v) :: rest, k => if k' = k then some v else alookup rest k

/-- Association-list store (Python `d[k] = v`): replaces the first binding
of `k`, or appends a new binding. -/
def aset {α : Type} : List (Nat × α) → Nat → α → List (Nat × α)
  | [], k, v => [(k, v)]
  | (k', v') :: rest, k, v =>
      if k' = k then (k, v) :: rest else (k', v') :: aset rest k v

/-- Python `max(d.keys())`: raises `ValueError` on an empty dict. -/
def keys_max {α : Type} : List (Nat × α) → Except PyErr Nat
  | [] => .error .valueError
  | p :: rest => .ok (rest.foldl (fun m q => Nat.max m q.1) p.1)

/-- Stable insertion by key (helper for `sortByKey`). -/
def insertByKey {α : Type} (key : α → Nat) (x : α) : List α → List α
  | [] => [x]
  | y :: ys => if key x < key y then x :: y :: ys else y :: insertByKey key x ys

/-- Stable sort by a `Nat` key (Python `sorted(rows, key=...)`). -/
def sortByKey {α : Type} (key : α → Nat) : List α → List α
  | [] => []
  | x :: xs => insertByKey key x (sortByKey key xs)

/-- Apply `f` to the last element of a list (Python `l[-1] = f(l[-1])`). -/
def updLast {α : Type} (f : α → α) : List α → List α
  | [] => []
  | [x] => [f x]
  | x :: y :: rest => x :: updLast f (y :: rest)

/-- Left fold of a fallible step over a list, stopping at the first raised
exception (a Python `for` loop whose body may raise). -/
def foldE {σ α : Type} (f : σ → α → Except PyErr σ) : σ → List α → Except PyErr σ
  | s, [] => .ok s
  | s, a :: l =>
      match f s a with
      | .ok s' => foldE f s' l
      | .error e => .error e

/-- Pointwise update of a field-lookup function (Python `d[k] = v` on a
field dict, observed through `d.get`). -/
def setF (m : String → Option NVal) (k : String) (v : Option NVal) : String → Option NVal :=
  fun f => if f = k then v else m f

/-- One property-store version: the field dict of a work identifier at a
given checkpoint (`{column_name: value, ..., "checkpointindex": c}`). -/
structure Version where
  fields : String → Option NVal
  checkpointindex : Nat

/-- The `propstore_records` dict: work identifier → list of versions. -/
abbrev PropRecords := List (Nat × List Version)

/-- `{column_name: value}` update on a version, keeping its checkpoint
index (`propstore_records[work_id][i][column_name] = value`). -/
def setFieldV (cname : String) (value : Option NVal) (u : Version) : Version :=
  ⟨setF u.fields cname value, u.checkpointindex⟩

/-- A row of the gatherer table `SystemIndex_Gthr` (sqlite path), with the
columns the code reads. -/
structure GthrRow where
  DocumentID : Nat
  FileName : Option String
  LastModified : Option (List Nat)
  SDID : Option Int

/-- A processed gatherer record, as stored in `gthr_records`. -/
structure GthrRec where
  FileName : Option String
  LastModified : Option Nat
  SDID : Option Int

/-- A row of `SystemIndex_1_PropertyStore_Metadata`. -/
structure MetaRow where
  Id : Nat
  PropertyId : String

/-- A row of the base `SystemIndex_1_PropertyStore` table. -/
structure PropRow where
  WorkId : Nat
  ColumnId : Nat
  Value : Option RawVal

/-- Lines 180-186: convert one gatherer row.  The `wintimestamp` call on
`LastModified` is NOT wrapped in a `try`/`except`, so a conversion failure
propagates. -/
def gthr_rec_of_row (r : GthrRow) : Except PyErr GthrRec :=
  match r.LastModified with
  | none => .ok ⟨r.FileName, none, r.SDID⟩
  | some bs =>
      match wintimestamp (int_from_bytes_le bs) with
      | .ok t => .ok ⟨r.FileName, some t, r.SDID⟩
      | .error e => .error e

/-- Loop of lines 179-186 over the sorted gatherer rows. -/
def build_gthr_loop (acc : List (Nat × GthrRec)) :
    List GthrRow → Except PyErr (List (Nat × GthrRec))
  | [] => .ok acc
  | r :: rs =>
      match gthr_rec_of_row r with
      | .error e => .error e
      | .ok g => build_gthr_loop (aset acc r.DocumentID g) rs

/-- Lines 177-186: build `gthr_records` keyed by `DocumentID`. -/
def build_gthr (rows : List GthrRow) : Except PyErr (List (Nat × GthrRec)) :=
  build_gthr_loop [] (sortByKey (fun r => r.DocumentID) rows)

/-- Lines 192-196: build `propstore_metadata` (column id → column name),
replacing `.` with `_` and keeping only allow-listed names. -/
def build_metadata (rows : List MetaRow) : List (Nat × String) :=
  rows.foldl
    (fun acc r =>
      let cn := r.PropertyId.replace (".") ("_")
      if cn ∈ PROPSTORE_INCLUDE_COLUMNS then aset acc r.Id cn else acc)
    []

/-- Lines 205-212 and 230-237: normalize one raw change value for column
`cname`.  Datetime fields decode the little-endian file-time, with
`ValueError` caught and mapped to `None`; a non-blob value in a datetime
field would make `int.from_bytes` raise, which is not caught. -/
def normalize_change (cname : String) (rv : Option RawVal) : Except PyErr (Option NVal) :=
  if cname ∈ WIN_DATETIME_FIELDS then
    match rv with
    | none => .ok none
    | some (.bytes bs) =>
        match wintimestamp (int_from_bytes_le bs) with
        | .ok t => .ok (some (.dt t))
        | .error _ => .ok none
    | some _ => .error .typeError
  else .ok (rv.map NVal.raw)

/-- Lines 201-216: fold one base property-store row into
`propstore_records` (each work identifier gets exactly one version with
checkpoint index 0; later rows for it update that version in place via
index `[0]`). -/
def seed_base (meta : List (Nat × String)) (st : PropRecords) (row : PropRow) :
    Except PyErr PropRecords :=
  match alookup meta row.ColumnId with
  | none => .ok st
  | some cname =>
      match normalize_change cname row.Value with
      | .error e => .error e
      | .ok value =>
          match alookup st row.WorkId with
          | none => .ok (aset st row.WorkId [⟨setF (fun _ => none) cname value, 0⟩])
          | some [] => .error .indexError
          | some (v :: rest) => .ok (aset st row.WorkId (setFieldV cname value v :: rest))

/-- Lines 198-216: seed the base state from the sorted property-store rows. -/
def seed_all (meta : List (Nat × String)) (rows : List PropRow) : Except PyErr PropRecords :=
  foldE (seed_base meta) [] (sortByKey (fun r => r.WorkId) rows)

/-- A WAL cell: its size and its `values` triple
`[work_id, column_id, value]`. -/
structure Cell where
  size : Nat
  values : Nat × Nat × Option RawVal

/-- The decoded page of a WAL frame: either accessing it raises
`InvalidPageType`, or it exposes header flags and cells. -/
inductive FrameContent
  | invalidPageType
  | page (flags : Nat) (cells : List Cell)

/-- A WAL checkpoint: its index and its frames. -/
structure Checkpoint where
  index : Nat
  frames : List FrameContent

/-- Inner loop of `get_rows_from_checkpoint` (lines 420-423): collect the
cells' values, aborting the whole call (`return []`) on a cell whose size
exceeds 255. -/
def rows_from_cells : List Cell → Option (List (Nat × Nat × Option RawVal))
  | [] => some []
  | c :: cs =>
      if 255 < c.size then none
      else (rows_from_cells cs).map (fun rs => c.values :: rs)

/-- Frame loop of `get_rows_from_checkpoint` (lines 416-425): frames whose
page raises `InvalidPageType` or whose header flags are not `0xA` are
skipped; an oversized cell aborts the whole call with `none`. -/
def rows_from_frames : List FrameContent → Option (List (Nat × Nat × Option RawVal))
  | [] => some []
  | .invalidPageType :: fs => rows_from_frames fs
  | .page flags cells :: fs =>
      if flags ≠ 0xA then rows_from_frames fs
      else
        match rows_from_cells cells with
        | none => none
        | some rs => (rows_from_frames fs).map (fun rest => rs ++ rest)

/-- Lines 414-426: the change tuples contributed by one checkpoint.  An
oversized cell makes the function `return []` for the entire checkpoint. -/
def get_rows_from_checkpoint (cp : Checkpoint) : List (Nat × Nat × Option RawVal) :=
  (rows_from_frames cp.frames).getD []

/-- Lines 223-250: apply one WAL change tuple `(work_id, column_id, value)`
from a checkpoint of index `cidx` to `propstore_records`. -/
def apply_change (meta : List (Nat × String)) (cidx : Nat) (st : PropRecords)
    (row : Nat × Nat × Option RawVal) : Except PyErr PropRecords :=
  match alookup meta row.2.1 with
  | none => .ok st
  | some cname =>
      match normalize_change cname row.2.2 with
      | .error e => .error e
      | .ok value =>
          match alookup st row.1 with
          | none => .ok (aset st row.1 [⟨setF (fun _ => none) cname value, cidx⟩])
          | some vs =>
              match vs.getLast? with
              | none => .error .indexError
              | some last =>
                  if last.checkpointindex < cidx then
                    if last.fields cname = value then .ok st
                    else .ok (aset st row.1
                      (updLast (setFieldV cname value) (vs ++ [⟨last.fields, cidx⟩])))
                  else .ok (aset st row.1 (updLast (setFieldV cname value) vs))

/-- Lines 220-250: replay one checkpoint's rows. -/
def replay_checkpoint (meta : List (Nat × String)) (st : PropRecords) (cp : Checkpoint) :
    Except PyErr PropRecords :=
  foldE (apply_change meta cp.index) st (get_rows_from_checkpoint cp)

/-- Lines 198-250: the property-store state after base seeding and (when a
WAL is present) checkpoint replay. -/
def sqlite_propstate (meta : List (Nat × String)) (prop_rows : List PropRow)
    (wal : Option (List Checkpoint)) : Except PyErr PropRecords :=
  match seed_all meta prop_rows with
  | .error e => .error e
  | .ok st =>
      match wal with
      | some cps => foldE (replay_checkpoint meta) st cps
      | none => .ok st

/-- A merged output row (lines 297-309): the `{"WorkID": it} | gthr | version
| {"latest": b}` dict.  The gatherer keys (`FileName`, `LastModified`,
`SDID`) and the version keys (allow-listed column names plus
`"checkpointindex"`) are disjoint, so the merge is kept componentwise.
`checkpointindex`/`latest` are `none` when the corresponding keys are
absent from the dict (identity-only rows and the EDB path). -/
structure MergedRow where
  WorkID : Nat
  gthr : Option GthrRec
  fields : String → Option NVal
  checkpointindex : Option Nat
  latest : Option Bool

/-- The row emitted for one version (line 305): merged fields, the version's
checkpoint index, and `latest = False`. -/
def mkVersionRow (it : Nat) (g : Option GthrRec) (v : Version) : MergedRow :=
  ⟨it, g, v.fields, some v.checkpointindex, some false⟩

/-- Line 306: `rows[-1]["latest"] = True`. -/
def setLatestTrue (r : MergedRow) : MergedRow :=
  { r with latest := some true }

/-- Body of the emission loop (lines 300-308) for one `iterator` value,
threading the global `rows` accumulator: version rows are appended with
`latest = False` and then the LAST element of the whole accumulator gets
`latest = True`; a work identifier with no versions contributes a single
identity-only row when it has gatherer data (`len(row) > 1`, which holds
exactly when the gatherer record is present since it always carries the
three gatherer keys). -/
def emit_step (gthr : List (Nat × GthrRec)) (pst : PropRecords)
    (rows : List MergedRow) (it : Nat) : List MergedRow :=
  match alookup pst it with
  | some vs => updLast setLatestTrue (rows ++ vs.map (mkVersionRow it (alookup gthr it)))
  | none =>
      if (alookup gthr it).isSome then
        rows ++ [⟨it, alookup gthr it, fun _ => none, none, none⟩]
      else rows

/-- The rows contributed by one work identifier alone (the shape
`emit_step` takes when every version list is nonempty). -/
def emit_one (gthr : List (Nat × GthrRec)) (pst : PropRecords) (it : Nat) : List MergedRow :=
  match alookup pst it with
  | some vs => updLast setLatestTrue (vs.map (mkVersionRow it (alookup gthr it)))
  | none =>
      if (alookup gthr it).isSome then
        [⟨it, alookup gthr it, fun _ => none, none, none⟩]
      else []

/-- Lines 297-309: the emission sweep.  `max_id` is the maximum work
identifier over both dicts (`max` raises `ValueError` on an empty dict) and
the loop runs over `range(max_id)`, i.e. `0, …, max_id - 1`. -/
def emit_rows (gthr : List (Nat × GthrRec)) (pst : PropRecords) :
    Except PyErr (List MergedRow) :=
  match keys_max gthr with
  | .error e => .error e
  | .ok mg =>
      match keys_max pst with
      | .error e => .error e
      | .ok mp => .ok ((List.range (Nat.max mg mp)).foldl (emit_step gthr pst) [])

/-- Lines 154-309 (with the debug I/O elided): the full sqlite-path record
production. -/
def get_sqlite_records (gthr_rows : List GthrRow) (meta_rows : List MetaRow)
    (prop_rows : List PropRow) (wal : Option (List Checkpoint)) :
    Except PyErr (List MergedRow) :=
  match build_gthr gthr_rows with
  | .error e => .error e
  | .ok gthr =>
      match sqlite_propstate (build_metadata meta_rows) prop_rows wal with
      | .error e => .error e
      | .ok pst => emit_rows gthr pst

/-- Hex digit for a value below 16. -/
def hexDigit (n : Nat) : String :=
  String.singleton (("0123456789abcdef").toList.getD n ('0'))

/-- Two-digit lowercase hex of one byte. -/
def byteHex (b : UInt8) : String :=
  hexDigit (b.toNat / 16) ++ hexDigit (b.toNat % 16)

/-- Python `s.encode("utf-8").hex()`. -/
def hexOfUtf8 (s : String) : String :=
  String.join (s.toUTF8.toList.map byteHex)

/-- Flag table for the modelled NTFS attribute decoder. -/
def fileAttrFlags : List (Nat × String) :=
  [(1, "READONLY"), (2, "HIDDEN"), (4, "SYSTEM"), (32, "ARCHIVE"),
   (128, "NORMAL"), (8192, "NOT_CONTENT_INDEXED")]

/-- Modelled from the spec: the external NTFS attribute decoder
(`c_ntfs.FILE_ATTRIBUTE`, line 347), which is not part of this repository.
Per §4.2 of the spec, "file-attribute bitmasks are decoded into their
symbolic flag names"; a representative flag table is used, the exact names
being irrelevant to every claim. -/
def fileAttrStr (n : Int) : String :=
  String.intercalate ("|")
    (fileAttrFlags.filterMap
      (fun p => if Nat.land n.toNat p.1 ≠ 0 then some p.2 else none))

/-- Extract an optional Python `str` (raises `TypeError`-like failure on a
value of the wrong runtime type, standing for the `AttributeError` or
`TypeError` the untyped Python code would raise). -/
def pyStrOpt : Option NVal → Except PyErr (Option String)
  | none => .ok none
  | some (.raw (.str s)) => .ok (some s)
  | some _ => .error .typeError

/-- Extract an optional Python `int`. -/
def pyIntOpt : Option NVal → Except PyErr (Option Int)
  | none => .ok none
  | some (.raw (.int n)) => .ok (some n)
  | some _ => .error .typeError

/-- Extract an optional Python `bytes`. -/
def pyBytesOpt : Option NVal → Except PyErr (Option (List Nat))
  | none => .ok none
  | some (.raw (.bytes bs)) => .ok (some bs)
  | some _ => .error .typeError

/-- The `SearchIndexFileActivityRecord` emitted at lines 326-340. -/
structure ActivityRecord where
  workid : Nat
  file_contenturi : Option NVal
  starttime : Option NVal
  endtime : Option NVal
  appid : Option NVal
  description : Option NVal
  displaytext : Option NVal
  itempathdisplay : Option NVal
  systemitemtype : Option NVal
  source : String
  latest : Option Bool
  checkpointindex : Option Nat

/-- The `SearchIndexFileInfoRecord` emitted at lines 348-367. -/
structure FileInfoRecord where
  workid : Nat
  record_last_modified : Option Nat
  filename : Option String
  gathertime : Option NVal
  SDID : Option Int
  size : Option Nat
  date_modified : Option NVal
  date_created : Option NVal
  owner : Option NVal
  systemitemtype : Option NVal
  fileattributes : Option String
  autosummary : Option String
  source : String
  latest : Option Bool
  checkpointindex : Option Nat

/-- One emitted record of either output shape. -/
inductive OutRecord
  | activity (a : ActivityRecord)
  | fileinfo (f : FileInfoRecord)

/-- The work identifier of an emitted record. -/
def OutRecord.workidF : OutRecord → Nat
  | .activity a => a.workid
  | .fileinfo f => f.workid

/-- The `latest` field of an emitted record. -/
def OutRecord.latestF : OutRecord → Option Bool
  | .activity a => a.latest
  | .fileinfo f => f.latest

/-- The `checkpointindex` field of an emitted record. -/
def OutRecord.cpxF : OutRecord → Option Nat
  | .activity a => a.checkpointindex
  | .fileinfo f => f.checkpointindex

/-- Lines 324-367: classify one merged row by its `System_ItemType` and
build the output record.  In the file-information branch the filename
(`System_ItemPathDisplay`) gets `\` → `/` replacement, the auto-summary is
hex-encoded, the attributes are decoded, and `System_Size` is decoded
little-endian; the activity branch passes every field through unchanged. -/
def emit_record (source : String) (r : MergedRow) : Except PyErr OutRecord :=
  if r.fields ("System_ItemType") = some (.raw (.str ("ActivityHistoryItem"))) then
    .ok (.activity
      { workid := r.WorkID
        file_contenturi := r.fields ("System_Activity_ContentUri")
        starttime := r.fields ("System_ActivityHistory_StartTime")
        endtime := r.fields ("System_ActivityHistory_EndTime")
        appid := r.fields ("System_ActivityHistory_AppId")
        description := r.fields ("System_Activity_Description")
        displaytext := r.fields ("System_Activity_DisplayText")
        itempathdisplay := r.fields ("System_ItemPathDisplay")
        systemitemtype := r.fields ("System_ItemType")
        source := source
        latest := r.latest
        checkpointindex := r.checkpointindex })
  else
    match pyStrOpt (r.fields ("System_ItemPathDisplay")) with
    | .error e => .error e
    | .ok fn =>
        match pyStrOpt (r.fields ("System_Search_AutoSummary")) with
        | .error e => .error e
        | .ok asum =>
            match pyIntOpt (r.fields ("System_FileAttributes")) with
            | .error e => .error e
            | .ok fa =>
                match pyBytesOpt (r.fields ("System_Size")) with
                | .error e => .error e
                | .ok szb =>
                    .ok (.fileinfo
                      { workid := r.WorkID
                        record_last_modified := r.gthr.bind (fun g => g.LastModified)
                        filename := fn.map (fun s => s.replace ("\\") ("/"))
                        gathertime := r.fields ("System_Search_GatherTime")
                        SDID := r.gthr.bind (fun g => g.SDID)
                        size := szb.map int_from_bytes_le
                        date_modified := r.fields ("System_DateModified")
                        date_created := r.fields ("System_DateCreated")
                        owner := r.fields ("System_FileOwner")
                        systemitemtype := r.fields ("System_ItemType")
                        fileattributes := fa.map fileAttrStr
                        autosummary := asum.map hexOfUtf8
                        source := source
                        latest := r.latest
                        checkpointindex := r.checkpointindex })

/-- The emission loop of `searchindex` over one file's records (an
exception raised for one record aborts the generator). -/
def emit_all (source : String) : List MergedRow → Except PyErr (List OutRecord)
  | [] => .ok []
  | r :: rs =>
      match emit_record source r with
      | .error e => .error e
      | .ok o =>
          match emit_all source rs with
          | .error e => .error e
          | .ok os => .ok (o :: os)

/-- A row of `SystemIndex_Gthr` as returned by the external EDB reader
(timestamps already decoded by the `dissect.esedb` tool). -/
structure EdbGthrRow where
  DocumentID : Nat
  LastModified : Option Nat
  SDID : Option Int

/-- A row of `SystemIndex_PropertyStore` from the EDB reader: the work
identifier plus the allow-listed columns, observed through `get`. -/
structure EdbPropRow where
  WorkID : Nat
  fields : String → Option NVal

/-- Line 132: `{row["DocumentID"]: row for row in gthr_table_rows}`. -/
def build_edb_gthr (rows : List EdbGthrRow) : List (Nat × EdbGthrRow) :=
  rows.foldl (fun acc r => aset acc r.DocumentID r) []

/-- Line 140: `{row["WorkID"]: row for row in propstore_table_rows}`. -/
def build_edb_prop (rows : List EdbPropRow) : List (Nat × EdbPropRow) :=
  rows.foldl (fun acc r => aset acc r.WorkID r) []

/-- Lines 142-152: merge the two EDB dicts over `range(max_id)`.  A row is
kept when `len(row) > 1`, i.e. when at least one source contributes keys
beyond the bare identifier (both table rows always do).  The merged dict
never contains `latest` or `checkpointindex` keys, so those come out
`none`. -/
def get_edb_records (g : List EdbGthrRow) (p : List EdbPropRow) :
    Except PyErr (List MergedRow) :=
  match keys_max (build_edb_gthr g) with
  | .error e => .error e
  | .ok mg =>
      match keys_max (build_edb_prop p) with
      | .error e => .error e
      | .ok mp =>
          .ok ((List.range (Nat.max mg mp)).filterMap (fun it =>
            match alookup (build_edb_gthr g) it, alookup (build_edb_prop p) it with
            | none, none => none
            | og, op =>
                some ⟨it, og.map (fun r => ⟨none, r.LastModified, r.SDID⟩),
                      (fun f => match op with
                                | some r => r.fields f
                                | none => none),
                      none, none⟩))

/-- Lines 317-367 for an `.edb` file: EDB record gathering (no WAL, no
version history) followed by the uniform emission loop. -/
def edb_searchindex (source : String) (g : List EdbGthrRow) (p : List EdbPropRow) :
    Except PyErr (List OutRecord) :=
  match get_edb_records g p with
  | .error e => .error e
  | .ok rows => emit_all source rows

/-- Lines 317-367 for a `.db` file: sqlite record gathering followed by the
emission loop. -/
def sqlite_searchindex (source : String) (gthr_rows : List GthrRow)
    (meta_rows : List MetaRow) (prop_rows : List PropRow)
    (wal : Option (List Checkpoint)) : Except PyErr (List OutRecord) :=
  match get_sqlite_records gthr_rows meta_rows prop_rows wal with
  | .error e => .error e
  | .ok rows => emit_all source rows

/-- Strictly increasing checkpoint indices along a version list. -/
def VersChain (vs : List Version) : Prop :=
  List.Chain' (· < ·) (vs.map (fun v => v.checkpointindex))

/-- Replay-state invariant: every version list is nonempty with strictly
increasing checkpoint indices. -/
def StInv (st : PropRecords) : Prop :=
  ∀ p ∈ st, p.2 ≠ [] ∧ VersChain p.2

/-- Sample version for the C1 witness: owner "alice" at checkpoint 1. -/
def C1v0 : Version :=
  ⟨setF (fun _ => none) ("System_FileOwner") (some (.raw (.str ("alice")))), 1⟩

/-- Sample version list for the C1 witness. -/
def C1vs : List Version := [C1v0]

/-- Sample state for the C1 witness. -/
def C1st : PropRecords := [(5, C1vs)]

/-- Sample metadata for the C1 witness. -/
def C1meta : List (Nat × String) := [(10, "System_FileOwner")]

/-- Sample version for the C3 witness. -/
def C3v0 : Version :=
  ⟨setF (fun _ => none) ("System_FileOwner") (some (.raw (.str ("alice")))), 1⟩

/-- Sample version list for the C3 witness. -/
def C3vs : List Version := [C3v0]

/-- Sample state for the C3 witness. -/
def C3st : PropRecords := [(5, C3vs)]

/-- Sample metadata for the C3 witness. -/
def C3meta : List (Nat × String) := [(10, "System_FileOwner"), (11, "System_ItemType")]

/-- State after the first C3 witness change. -/
def C3st1 : PropRecords :=
  (apply_change C3meta 2 C3st (5, 10, some (.str ("bob")))).toOption.getD []

/-- State after the second C3 witness change. -/
def C3st2 : PropRecords :=
  (apply_change C3meta 2 C3st1 (5, 11, some (.str ("doc")))).toOption.getD []

/-- Sample metadata for the C2 witness. -/
def C2meta : List (Nat × String) := [(10, "System_FileOwner")]

/-- Sample base property-store rows for the C2 witness. -/
def C2prop : List PropRow := [⟨5, 10, some (.str ("alice"))⟩]

/-- Sample WAL (one checkpoint changing the owner) for the C2 witness. -/
def C2wal : Option (List Checkpoint) :=
  some [⟨1, [.page 0xA [⟨20, (5, 10, some (.str ("bob")))⟩]]⟩]

/-- Sample gatherer map for the C2 witness. -/
def C2gthr : List (Nat × GthrRec) := [(6, ⟨some ("f.txt"), none, none⟩)]

/-- Replayed state for the C2 witness. -/
def C2pst : PropRecords := (sqlite_propstate C2meta C2prop C2wal).toOption.getD []

/-- Emitted rows for the C2 witness. -/
def C2rows : List MergedRow := (emit_rows C2gthr C2pst).toOption.getD []

/-- Gatherer map for C4: work identifiers 0 and 2, so 2 is the maximum. -/
def C4gthr : List (Nat × GthrRec) :=
  [(0, ⟨some ("a.txt"), none, none⟩), (2, ⟨some ("b.txt"), none, none⟩)]

/-- Property state for C4: one version at work identifier 1. -/
def C4pst : PropRecords :=
  [(1, [⟨setF (fun _ => none) ("System_FileOwner") (some (.raw (.str ("o")))), 0⟩])]

/-- EDB gatherer rows for C4: document identifiers 0 and 2. -/
def C4erows : List EdbGthrRow := [⟨0, none, none⟩, ⟨2, none, some 9⟩]

/-- EDB property rows for C4: work identifier 1. -/
def C4eprop : List EdbPropRow := [⟨1, fun _ => none⟩]

/-- Gatherer map for C5: work identifier 0 has only gatherer data; key 2
keeps the sweep bound above 0 and 1. -/
def C5gthr : List (Nat × GthrRec) :=
  [(0, ⟨some ("g.txt"), some 99, some 7⟩), (2, ⟨some ("h.txt"), none, none⟩)]

/-- Property state for C5: a single version at work identifier 1 only. -/
def C5pst : PropRecords :=
  [(1, [⟨setF (fun _ => none) ("System_FileOwner") (some (.raw (.str ("o")))), 0⟩])]

/-- Merged rows emitted for the C5 scenario. -/
def C5rows : List MergedRow := (emit_rows C5gthr C5pst).toOption.getD []

/-- Output records emitted for the C5 scenario. -/
def C5out : List OutRecord := (emit_all ("db") C5rows).toOption.getD []

/-- A well-formed small cell for the C6 scenario. -/
def C6cellA : Cell := ⟨20, (5, 10, some (.str ("a")))⟩

/-- An oversized cell (size above the 255 threshold) for the C6 scenario. -/
def C6cellBig : Cell := ⟨300, (6, 11, some (.bytes [1, 2]))⟩

/-- Another well-formed small cell for the C6 scenario. -/
def C6cellB : Cell := ⟨20, (7, 12, some (.str ("b")))⟩

/-- The `System_ItemPathDisplay` value of an emitted activity record
(`none` for a file-information record). -/
def OutRecord.itempathdisplayF : OutRecord → Option NVal
  | .activity a => a.itempathdisplay
  | .fileinfo _ => none

/-- The `filename` of an emitted file-information record (`none` for an
activity record). -/
def OutRecord.filenameF : OutRecord → Option String
  | .activity _ => none
  | .fileinfo f => f.filename

/-- A merged row classified as an activity item whose path contains
backslashes (C9 scenario). -/
def C9row : MergedRow :=
  ⟨4, none,
   setF (setF (fun _ => none) ("System_ItemType")
       (some (.raw (.str ("ActivityHistoryItem")))))
     ("System_ItemPathDisplay") (some (.raw (.str ("C:\\Users\\p.txt")))),
   some 0, some true⟩

/-- A merged row classified as a file-information item whose path contains
backslashes (C9 scenario). -/
def C9frow : MergedRow :=
  ⟨8, none,
   setF (fun _ => none) ("System_ItemPathDisplay")
     (some (.raw (.str ("C:\\a.txt")))),
   none, none⟩

/-- The record emitted for `C9row`. -/
def C9out : OutRecord :=
  match emit_record ("db") C9row with
  | .ok r => r
  | .error _ => .fileinfo ⟨0, none, none, none, none, none, none, none, none,
      none, none, none, "", none, none⟩

/-- The record emitted for `C9frow`. -/
def C9fout : OutRecord :=
  match emit_record ("db") C9frow with
  | .ok r => r
  | .error _ => .fileinfo ⟨0, none, none, none, none, none, none, none, none,
      none, none, none, "", none, none⟩

/-- EDB gatherer rows for the C10 witness. -/
def C10g : List EdbGthrRow := [⟨0, some 50, some 1⟩, ⟨2, none, some 2⟩]

/-- EDB property rows for the C10 witness. -/
def C10p : List EdbPropRow :=
  [⟨1, setF (fun _ => none) ("System_FileOwner") (some (.raw (.str ("o"))))⟩]

/-- Output records of the EDB path for the C10 witness. -/
def C10out : List OutRecord := (edb_searchindex ("edb") C10g C10p).toOption.getD []

/-- Concatenation of per-identifier row blocks (the shape the emission
loop's accumulator takes when every version list is nonempty). -/
def catMaps {α β : Type} (f : α → List β) : List α → List β
  | [] => []
  | a :: l => f a ++ catMaps f l

theorem alookup_aset_self {α : Type} (l : List (Nat × α)) (k : Nat) (v : α) :
    alookup (aset l k v) k = some v := by
  induction l with
  | nil => simp [aset, alookup]
  | cons p rest ih =>
      obtain ⟨k', v'⟩ := p
      by_cases h : k' = k
      · simp [aset, h, alookup]
      · simp [aset, h, alookup, ih]

theorem alookup_aset_ne {α : Type} (l : List (Nat × α)) (k k' : Nat) (v : α)
    (h : k' ≠ k) : alookup (aset l k v) k' = alookup l k' := by
  have hne : ¬ k = k' := fun hh => h hh.symm
  induction l with
  | nil => simp [aset, alookup, hne]
  | cons p rest ih =>
      obtain ⟨k0, v0⟩ := p
      by_cases h0 : k0 = k
      · subst h0
        simp [aset, alookup, hne]
      · simp [aset, h0, alookup, ih]

theorem aset_self {α : Type} (l : List (Nat × α)) (k : Nat) (v : α)
    (h : alookup l k = some v) : aset l k v = l := by
  induction l with
  | nil => simp [alookup] at h
  | cons p rest ih =>
      obtain ⟨k0, v0⟩ := p
      by_cases h0 : k0 = k
      · subst h0
        simp [alookup] at h
        simp [aset, h]
      · simp [alookup, h0] at h
        simp [aset, h0, ih h]

theorem mem_aset {α : Type} (l : List (Nat × α)) (k : Nat) (v : α) (p : Nat × α)
    (h : p ∈ aset l k v) : p = (k, v) ∨ p ∈ l := by
  induction l with
  | nil => simp [aset] at h; simp [h]
  | cons q rest ih =>
      obtain ⟨k0, v0⟩ := q
      by_cases h0 : k0 = k
      · simp [aset, h0] at h
        rcases h with h | h
        · exact Or.inl h
        · exact Or.inr (List.mem_cons_of_mem _ h)
      · simp [aset, h0] at h
        rcases h with h | h
        · exact Or.inr (by simp [h])
        · rcases ih h with h' | h'
          · exact Or.inl h'
          · exact Or.inr (List.mem_cons_of_mem _ h')

theorem alookup_mem {α : Type} (l : List (Nat × α)) (k : Nat) (v : α)
    (h : alookup l k = some v) : (k, v) ∈ l := by
  induction l with
  | nil => simp [alookup] at h
  | cons q rest ih =>
      obtain ⟨k0, v0⟩ := q
      by_cases h0 : k0 = k
      · subst h0
        simp [alookup] at h
        simp [h]
      · simp [alookup, h0] at h
        exact List.mem_cons_of_mem _ (ih h)

theorem updLast_nil {α : Type} (f : α → α) : updLast f [] = [] := rfl

theorem updLast_append_singleton {α : Type} (f : α → α) (l : List α) (x : α) :
    updLast f (l ++ [x]) = l ++ [f x] := by
  induction l with
  | nil => rfl
  | cons a l ih =>
      cases l with
      | nil => rfl
      | cons b l' => simpa [updLast] using ih

theorem updLast_length {α : Type} (f : α → α) (l : List α) :
    (updLast f l).length = l.length := by
  induction l with
  | nil => rfl
  | cons a l ih =>
      cases l with
      | nil => rfl
      | cons b l' => simpa [updLast] using ih

theorem updLast_fix {α : Type} (f : α → α) (l : List α) (x : α)
    (hl : l.getLast? = some x) (hf : f x = x) : updLast f l = l := by
  induction l with
  | nil => simp at hl
  | cons a l ih =>
      cases l with
      | nil =>
          simp [List.getLast?] at hl
          simp [updLast, hl ▸ hf]
      | cons b l' =>
          rw [List.getLast?_cons_cons] at hl
          simp [updLast, ih hl]

theorem updLast_map_eq {α β : Type} (f : α → α) (g : α → β) (l : List α)
    (h : ∀ x, g (f x) = g x) : (updLast f l).map g = l.map g := by
  induction l with
  | nil => rfl
  | cons a l ih =>
      cases l with
      | nil => simp [updLast, h]
      | cons b l' => simpa [updLast] using ih

theorem updLast_filterMap_eq {α β : Type} (f : α → α) (g : α → Option β) (l : List α)
    (h : ∀ x, g (f x) = g x) : (updLast f l).filterMap g = l.filterMap g := by
  induction l with
  | nil => rfl
  | cons a l ih =>
      cases l with
      | nil => simp [updLast, List.filterMap, h]
      | cons b l' =>
          have hthis := ih
          simp only [updLast, List.filterMap_cons] at hthis ⊢
          rw [hthis]

theorem updLast_getLast? {α : Type} (f : α → α) (l : List α) :
    (updLast f l).getLast? = l.getLast?.map f := by
  induction l with
  | nil => rfl
  | cons a l ih =>
      cases l with
      | nil => rfl
      | cons b l' =>
          simp only [updLast]
          rw [List.getLast?_cons_cons]
          cases hU : updLast f (b :: l') with
          | nil =>
              have hlen := updLast_length f (b :: l')
              rw [hU] at hlen
              simp at hlen
          | cons y ys =>
              rw [List.getLast?_cons_cons, ← hU, ih]

theorem updLast_dropLast {α : Type} (f : α → α) (l : List α) :
    (updLast f l).dropLast = l.dropLast := by
  induction l with
  | nil => rfl
  | cons a l ih =>
      cases l with
      | nil => rfl
      | cons b l' =>
          simp only [updLast]
          rw [List.dropLast_cons_of_ne_nil, List.dropLast_cons_of_ne_nil]
          · rw [ih]
          · simp
          · cases l' with
            | nil => simp [updLast]
            | cons c l'' => simp [updLast]

theorem mem_updLast {α : Type} (f : α → α) (l : List α) (r : α)
    (h : r ∈ updLast f l) : r ∈ l ∨ ∃ x ∈ l, r = f x := by
  induction l with
  | nil => simp [updLast] at h
  | cons a l ih =>
      cases l with
      | nil =>
          simp [updLast] at h
          exact Or.inr ⟨a, by simp, h⟩
      | cons b l' =>
          simp only [updLast, List.mem_cons] at h
          rcases h with h | h
          · exact Or.inl (by simp [h])
          · rcases ih h with h' | ⟨x, hx, hr⟩
            · exact Or.inl (List.mem_cons_of_mem _ h')
            · exact Or.inr ⟨x, List.mem_cons_of_mem _ hx, hr⟩

theorem mem_dropLast_mem {α : Type} (l : List α) (r : α)
    (h : r ∈ l.dropLast) : r ∈ l := by
  induction l with
  | nil => simp at h
  | cons a l ih =>
      cases l with
      | nil => simp at h
      | cons b l' =>
          rw [List.dropLast_cons_of_ne_nil (by simp)] at h
          rcases List.mem_cons.mp h with h' | h'
          · simp [h']
          · exact List.mem_cons_of_mem _ (ih h')

theorem setF_self (m : String → Option NVal) (k : String) (v : Option NVal)
    (h : m k = v) : setF m k v = m := by
  funext f
  by_cases hf : f = k
  · simp [setF, hf, h]
  · simp [setF, hf]

theorem foldE_inv {σ α : Type} (f : σ → α → Except PyErr σ) (P : σ → Prop)
    (hf : ∀ s a s', P s → f s a = .ok s' → P s') :
    ∀ (l : List α) (s s' : σ), P s → foldE f s l = .ok s' → P s' := by
  intro l
  induction l with
  | nil =>
      intro s s' hs h
      simp only [foldE] at h
      cases h
      exact hs
  | cons a l ih =>
      intro s s' hs h
      simp only [foldE] at h
      cases hfa : f s a with
      | ok s1 =>
          rw [hfa] at h
          exact ih s1 s' (hf s a s1 hs hfa) h
      | error e =>
          rw [hfa] at h
          cases h

theorem getLast?_map {α β : Type} (f : α → β) (l : List α) :
    (l.map f).getLast? = l.getLast?.map f := by
  induction l with
  | nil => rfl
  | cons a l ih =>
      cases l with
      | nil => rfl
      | cons b l' =>
          simp only [List.map_cons] at ih ⊢
          rw [List.getLast?_cons_cons, List.getLast?_cons_cons, ih]

theorem versChain_singleton (v : Version) : VersChain [v] := by
  simp [VersChain]

theorem versChain_updLast (cname : String) (value : Option NVal) (vs : List Version)
    (h : VersChain vs) : VersChain (updLast (setFieldV cname value) vs) := by
  unfold VersChain at h ⊢
  rw [updLast_map_eq]
  · exact h
  · intro x
    rfl

theorem versChain_append_one (vs : List Version) (last : Version)
    (flds : String → Option NVal) (c : Nat) (h : VersChain vs)
    (hl : vs.getLast? = some last) (hc : last.checkpointindex < c) :
    VersChain (vs ++ [⟨flds, c⟩]) := by
  unfold VersChain at h ⊢
  rw [List.map_append]
  rw [List.chain'_append]
  refine ⟨h, by simp, ?_⟩
  intro x hx y hy
  rw [getLast?_map, hl] at hx
  simp at hx hy
  subst hx
  subst hy
  exact hc

theorem seed_base_inv (meta : List (Nat × String)) (st : PropRecords) (row : PropRow)
    (st' : PropRecords) (h : StInv st) (he : seed_base meta st row = .ok st') :
    StInv st' := by
  unfold seed_base at he
  split at he
  · cases he
    exact h
  · rename_i cname hm
    split at he
    · cases he
    · rename_i value hn
      split at he
      · rename_i hst
        cases he
        intro p hp
        rcases mem_aset _ _ _ _ hp with hp' | hp'
        · subst hp'
          exact ⟨by simp, versChain_singleton _⟩
        · exact h p hp'
      · cases he
      · rename_i v rest hst
        cases he
        intro p hp
        rcases mem_aset _ _ _ _ hp with hp' | hp'
        · subst hp'
          refine ⟨by simp, ?_⟩
          have hmem := alookup_mem _ _ _ hst
          have hvc := (h _ hmem).2
          unfold VersChain at hvc ⊢
          simpa [setFieldV] using hvc
        · exact h p hp'

theorem apply_change_inv (meta : List (Nat × String)) (cidx : Nat) (st : PropRecords)
    (row : Nat × Nat × Option RawVal) (st' : PropRecords) (h : StInv st)
    (he : apply_change meta cidx st row = .ok st') : StInv st' := by
  unfold apply_change at he
  split at he
  · cases he
    exact h
  · rename_i cname hm
    split at he
    · cases he
    · rename_i value hn
      split at he
      · rename_i hst
        cases he
        intro p hp
        rcases mem_aset _ _ _ _ hp with hp' | hp'
        · subst hp'
          exact ⟨by simp, versChain_singleton _⟩
        · exact h p hp'
      · rename_i vs hst
        have hmem := alookup_mem _ _ _ hst
        have hvc := (h _ hmem).2
        split at he
        · cases he
        · rename_i last hlast
          split at he
          · rename_i hcl
            split at he
            · cases he
              exact h
            · rename_i hne
              cases he
              intro p hp
              rcases mem_aset _ _ _ _ hp with hp' | hp'
              · subst hp'
                rw [updLast_append_singleton]
                refine ⟨by simp, ?_⟩
                simp only [setFieldV]
                exact versChain_append_one vs last _ cidx hvc hlast hcl
              · exact h p hp'
          · rename_i hcl
            cases he
            intro p hp
            rcases mem_aset _ _ _ _ hp with hp' | hp'
            · subst hp'
              constructor
              · intro hnil
                simp only at hnil
                have hlen := updLast_length (setFieldV cname value) vs
                rw [hnil] at hlen
                cases vs with
                | nil => simp [List.getLast?] at hlast
                | cons a l => simp at hlen
              · exact versChain_updLast cname value vs hvc
            · exact h p hp'

theorem seed_all_inv (meta : List (Nat × String)) (rows : List PropRow)
    (st : PropRecords) (h : seed_all meta rows = .ok st) : StInv st := by
  unfold seed_all at h
  refine foldE_inv (seed_base meta) StInv ?_ _ [] st ?_ h
  · intro s a s' hs hstep
    exact seed_base_inv meta s a s' hs hstep
  · intro p hp
    cases hp

theorem replay_checkpoint_inv (meta : List (Nat × String)) (st : PropRecords)
    (cp : Checkpoint) (st' : PropRecords) (h : StInv st)
    (he : replay_checkpoint meta st cp = .ok st') : StInv st' := by
  unfold replay_checkpoint at he
  exact foldE_inv (apply_change meta cp.index) StInv
    (fun s a s' hs hstep => apply_change_inv meta cp.index s a s' hs hstep)
    _ st st' h he

theorem sqlite_propstate_inv (meta : List (Nat × String)) (prop_rows : List PropRow)
    (wal : Option (List Checkpoint)) (st : PropRecords)
    (h : sqlite_propstate meta prop_rows wal = .ok st) : StInv st := by
  unfold sqlite_propstate at h
  cases hs : seed_all meta prop_rows with
  | error e =>
      rw [hs] at h
      cases h
  | ok st0 =>
      rw [hs] at h
      have h0 := seed_all_inv meta prop_rows st0 hs
      cases wal with
      | none =>
          cases h
          exact h0
      | some cps =>
          exact foldE_inv (replay_checkpoint meta) StInv
            (fun s a s' hsi hstep => replay_checkpoint_inv meta s a s' hsi hstep)
            cps st0 st h0 h

theorem updLast_append_left {α : Type} (f : α → α) (l r : List α) (h : r ≠ []) :
    updLast f (l ++ r) = l ++ updLast f r := by
  induction l with
  | nil => rfl
  | cons a l ih =>
      rw [List.cons_append]
      cases hl : l ++ r with
      | nil =>
          rcases List.append_eq_nil.mp hl with ⟨h1, h2⟩
          exact absurd h2 h
      | cons b rest =>
          have h2 : updLast f (a :: b :: rest) = a :: updLast f (b :: rest) := rfl
          rw [h2, ← hl, ih]
          rfl

theorem catMaps_append {α β : Type} (f : α → List β) (l1 l2 : List α) :
    catMaps f (l1 ++ l2) = catMaps f l1 ++ catMaps f l2 := by
  induction l1 with
  | nil => rfl
  | cons a l ih => simp [catMaps, ih]

theorem emit_step_decomp (gthr : List (Nat × GthrRec)) (pst : PropRecords)
    (rows : List MergedRow) (it : Nat)
    (hne : ∀ vs, alookup pst it = some vs → vs ≠ []) :
    emit_step gthr pst rows it = rows ++ emit_one gthr pst it := by
  unfold emit_step emit_one
  cases hp : alookup pst it with
  | some vs =>
      have hv := hne vs hp
      simp only [hp]
      rw [updLast_append_left]
      intro hmap
      exact hv (List.map_eq_nil_iff.mp hmap)
  | none =>
      simp only [hp]
      by_cases hg : (alookup gthr it).isSome
      · simp [hg]
      · simp [hg]

theorem foldl_emit_decomp (gthr : List (Nat × GthrRec)) (pst : PropRecords)
    (hne : ∀ it vs, alookup pst it = some vs → vs ≠ []) :
    ∀ (l : List Nat) (acc : List MergedRow),
      l.foldl (emit_step gthr pst) acc = acc ++ catMaps (emit_one gthr pst) l := by
  intro l
  induction l with
  | nil =>
      intro acc
      simp [catMaps]
  | cons a l ih =>
      intro acc
      rw [List.foldl_cons, emit_step_decomp gthr pst acc a (hne a), ih]
      simp [catMaps]

theorem emit_one_workid (gthr : List (Nat × GthrRec)) (pst : PropRecords) :
    ∀ (it : Nat) (r : MergedRow), r ∈ emit_one gthr pst it → r.WorkID = it := by
  intro it r h
  unfold emit_one at h
  split at h
  · rename_i vs hp
    rcases mem_updLast _ _ _ h with h' | ⟨x, hx, hr⟩
    · rcases List.mem_map.mp h' with ⟨v, hv, he⟩
      rw [← he]
      rfl
    · rcases List.mem_map.mp hx with ⟨v, hv, he⟩
      rw [hr, ← he]
      rfl
  · rename_i hp
    split at h
    · rw [List.mem_singleton] at h
      rw [h]
    · cases h

theorem filter_workid_block {f : Nat → List MergedRow}
    (hf : ∀ i r, r ∈ f i → r.WorkID = i) (i w : Nat) :
    (f i).filter (fun r => r.WorkID == w) = if i = w then f i else [] := by
  by_cases h : i = w
  · subst h
    rw [if_pos rfl]
    apply List.filter_eq_self.mpr
    intro r hr
    simp [hf i r hr]
  · rw [if_neg h]
    apply List.filter_eq_nil_iff.mpr
    intro r hr
    simp [hf i r hr, h]

theorem filter_catMaps_range {f : Nat → List MergedRow}
    (hf : ∀ i r, r ∈ f i → r.WorkID = i) (n w : Nat) :
    (catMaps f (List.range n)).filter (fun r => r.WorkID == w) =
      if w < n then f w else [] := by
  induction n with
  | zero => simp [catMaps]
  | succ n ih =>
      rw [List.range_succ, catMaps_append, List.filter_append, ih]
      have hb : (catMaps f [n]).filter (fun r => r.WorkID == w) =
          if n = w then f n else [] := by
        simp only [catMaps, List.append_nil]
        exact filter_workid_block hf n w
      rw [hb]
      by_cases h1 : w < n
      · rw [if_pos h1, if_neg (by omega), if_pos (by omega)]
        simp
      · rw [if_neg h1]
        by_cases h2 : n = w
        · subst h2
          rw [if_pos rfl, if_pos (by omega)]
          simp
        · rw [if_neg h2, if_neg (by omega)]
          simp

theorem emit_rows_filter (gthr : List (Nat × GthrRec)) (pst : PropRecords)
    (rows : List MergedRow) (w mg mp : Nat)
    (hne : ∀ it vs, alookup pst it = some vs → vs ≠ [])
    (h : emit_rows gthr pst = .ok rows)
    (hg : keys_max gthr = .ok mg) (hp : keys_max pst = .ok mp) :
    rows.filter (fun r => r.WorkID == w) =
      if w < Nat.max mg mp then emit_one gthr pst w else [] := by
  unfold emit_rows at h
  split at h
  · cases h
  · rename_i mg' hmg
    split at h
    · cases h
    · rename_i mp' hmp
      cases h
      rw [hmg] at hg
      cases hg
      rw [hmp] at hp
      cases hp
      rw [foldl_emit_decomp gthr pst hne]
      simp only [List.nil_append]
      exact filter_catMaps_range (emit_one_workid gthr pst) _ w

theorem emit_one_versions (gthr : List (Nat × GthrRec)) (pst : PropRecords)
    (w : Nat) (vs : List Version) (hp : alookup pst w = some vs) :
    emit_one gthr pst w = updLast setLatestTrue (vs.map (mkVersionRow w (alookup gthr w))) := by
  simp [emit_one, hp]

theorem emit_one_identity (gthr : List (Nat × GthrRec)) (pst : PropRecords)
    (w : Nat) (hp : alookup pst w = none) (hg : (alookup gthr w).isSome) :
    emit_one gthr pst w = [⟨w, alookup gthr w, fun _ => none, none, none⟩] := by
  simp [emit_one, hp, hg]

theorem version_rows_cpx (it : Nat) (g : Option GthrRec) (vs : List Version) :
    (updLast setLatestTrue (vs.map (mkVersionRow it g))).filterMap
        (fun r => r.checkpointindex) =
      vs.map (fun v => v.checkpointindex) := by
  rw [updLast_filterMap_eq]
  · induction vs with
    | nil => rfl
    | cons v vs ih => simp [mkVersionRow, List.filterMap_cons, ih]
  · intro x
    rfl

theorem version_rows_last (it : Nat) (g : Option GthrRec) (vs : List Version)
    (h : vs ≠ []) :
    ((updLast setLatestTrue (vs.map (mkVersionRow it g))).getLast?).map
        (fun r => r.latest) = some (some true) := by
  rw [updLast_getLast?, getLast?_map]
  cases hv : vs.getLast? with
  | none =>
      rw [List.getLast?_eq_none_iff] at hv
      exact absurd hv h
  | some v => simp [mkVersionRow, setLatestTrue]

theorem version_rows_dropLast (it : Nat) (g : Option GthrRec) (vs : List Version)
    (r : MergedRow)
    (h : r ∈ (updLast setLatestTrue (vs.map (mkVersionRow it g))).dropLast) :
    r.latest = some false := by
  rw [updLast_dropLast] at h
  have h' := mem_dropLast_mem _ _ h
  rcases List.mem_map.mp h' with ⟨v, hv, he⟩
  rw [← he]
  rfl

theorem apply_change_append (meta : List (Nat × String)) (cidx : Nat)
    (st : PropRecords) (w col : Nat) (rv : Option RawVal) (cname : String)
    (nval : Option NVal) (vs : List Version) (last : Version)
    (hm : alookup meta col = some cname)
    (hn : normalize_change cname rv = .ok nval)
    (hst : alookup st w = some vs)
    (hlast : vs.getLast? = some last)
    (hcl : last.checkpointindex < cidx)
    (hne : last.fields cname ≠ nval) :
    apply_change meta cidx st (w, col, rv) =
      .ok (aset st w (vs ++ [⟨setF last.fields cname nval, cidx⟩])) := by
  unfold apply_change
  simp only [hm, hn, hst, hlast]
  rw [if_pos hcl, if_neg hne, updLast_append_singleton]
  rfl

theorem apply_change_inplace (meta : List (Nat × String)) (cidx : Nat)
    (st : PropRecords) (w col : Nat) (rv : Option RawVal) (cname : String)
    (nval : Option NVal) (vs : List Version) (last : Version)
    (hm : alookup meta col = some cname)
    (hn : normalize_change cname rv = .ok nval)
    (hst : alookup st w = some vs)
    (hlast : vs.getLast? = some last)
    (hncond : ¬(last.checkpointindex < cidx ∧ last.fields cname ≠ nval)) :
    apply_change meta cidx st (w, col, rv) =
      .ok (aset st w (updLast (setFieldV cname nval) vs)) := by
  unfold apply_change
  simp only [hm, hn, hst, hlast]
  by_cases hcl : last.checkpointindex < cidx
  · have heq : last.fields cname = nval := by
      by_contra hne
      exact hncond ⟨hcl, hne⟩
    rw [if_pos hcl, if_pos heq]
    have hfix : setFieldV cname nval last = last := by
      unfold setFieldV
      rw [setF_self last.fields cname nval heq]
    rw [updLast_fix _ _ _ hlast hfix, aset_self st w vs hst]
  · rw [if_neg hcl]

/-- C1: during checkpoint replay, for a change tuple whose work identifier
already has at least one version, a new version is appended if and only if
the checkpoint's index is strictly greater than the latest version's
checkpoint index AND the normalized new value differs from the field's
current value in the latest version; the appended version is a copy of the
prior latest version with its checkpoint index set to the checkpoint's
index and the changed field overwritten; in every other case the change is
written into the existing latest version in place and no version is
appended (when the compared values are equal, the in-place write leaves the
state literally unchanged, which the equalities below express). -/
theorem C1_replay_append_iff (meta : List (Nat × String)) (cidx : Nat)
    (st : PropRecords) (w col : Nat) (rv : Option RawVal) (cname : String)
    (nval : Option NVal) (vs : List Version) (last : Version)
    (hm : alookup meta col = some cname)
    (hn : normalize_change cname rv = .ok nval)
    (hst : alookup st w = some vs)
    (hlast : vs.getLast? = some last) :
    ((last.checkpointindex < cidx ∧ last.fields cname ≠ nval) →
      apply_change meta cidx st (w, col, rv) =
        .ok (aset st w (vs ++ [⟨setF last.fields cname nval, cidx⟩]))) ∧
    (¬(last.checkpointindex < cidx ∧ last.fields cname ≠ nval) →
      apply_change meta cidx st (w, col, rv) =
        .ok (aset st w (updLast (setFieldV cname nval) vs)) ∧
      (updLast (setFieldV cname nval) vs).length = vs.length) := by
  constructor
  · rintro ⟨hcl, hne⟩
    exact apply_change_append meta cidx st w col rv cname nval vs last hm hn hst hlast hcl hne
  · intro hncond
    exact ⟨apply_change_inplace meta cidx st w col rv cname nval vs last hm hn hst hlast hncond,
           updLast_length _ _⟩

/-- Witness for C1: a concrete changed value at a strictly larger
checkpoint index appends the expected cloned version. -/
theorem C1_replay_append_iff_witness :
    apply_change C1meta 2 C1st (5, 10, some (.str ("bob"))) =
      .ok (aset C1st 5 (C1vs ++ [⟨setF C1v0.fields ("System_FileOwner")
        (some (.raw (.str ("bob")))), 2⟩])) :=
  (C1_replay_append_iff C1meta 2 C1st 5 10 (some (.str ("bob")))
      ("System_FileOwner") (some (.raw (.str ("bob")))) C1vs C1v0
      rfl rfl rfl rfl).1 ⟨by decide, by decide⟩

/-- C3: two change tuples for the same work identifier but different fields
within the same checkpoint index (the index strictly above the previous
latest version's, the first changed value differing from its current value)
create exactly one new version, containing both updated field values. -/
theorem C3_same_checkpoint_coalesce (meta : List (Nat × String)) (cidx : Nat)
    (st st1 st2 : PropRecords) (w col1 col2 : Nat) (rv1 rv2 : Option RawVal)
    (f1 f2 : String) (v1 v2 : Option NVal) (vs : List Version) (last : Version)
    (hm1 : alookup meta col1 = some f1) (hm2 : alookup meta col2 = some f2)
    (hff : f1 ≠ f2)
    (hn1 : normalize_change f1 rv1 = .ok v1)
    (hn2 : normalize_change f2 rv2 = .ok v2)
    (hst : alookup st w = some vs) (hlast : vs.getLast? = some last)
    (hcl : last.checkpointindex < cidx) (hdiff : last.fields f1 ≠ v1)
    (h1 : apply_change meta cidx st (w, col1, rv1) = .ok st1)
    (h2 : apply_change meta cidx st1 (w, col2, rv2) = .ok st2) :
    ∃ vs2 lv, alookup st2 w = some vs2 ∧ vs2.length = vs.length + 1 ∧
      vs2.getLast? = some lv ∧ lv.fields f1 = v1 ∧ lv.fields f2 = v2 ∧
      lv.checkpointindex = cidx := by
  have e1 := apply_change_append meta cidx st w col1 rv1 f1 v1 vs last
    hm1 hn1 hst hlast hcl hdiff
  rw [e1] at h1
  cases h1
  have hst1 : alookup (aset st w (vs ++ [(⟨setF last.fields f1 v1, cidx⟩ : Version)])) w =
      some (vs ++ [(⟨setF last.fields f1 v1, cidx⟩ : Version)]) := alookup_aset_self _ _ _
  have hlast1 : (vs ++ [(⟨setF last.fields f1 v1, cidx⟩ : Version)]).getLast? =
      some (⟨setF last.fields f1 v1, cidx⟩ : Version) := List.getLast?_concat _
  have hncond : ¬((⟨setF last.fields f1 v1, cidx⟩ : Version).checkpointindex < cidx ∧
      (⟨setF last.fields f1 v1, cidx⟩ : Version).fields f2 ≠ v2) := by
    rintro ⟨hc, _⟩
    exact lt_irrefl cidx hc
  have e2 := apply_change_inplace meta cidx _ w col2 rv2 f2 v2 _ _
    hm2 hn2 hst1 hlast1 hncond
  rw [e2] at h2
  cases h2
  rw [updLast_append_singleton]
  refine ⟨vs ++ [setFieldV f2 v2 (⟨setF last.fields f1 v1, cidx⟩ : Version)],
    setFieldV f2 v2 (⟨setF last.fields f1 v1, cidx⟩ : Version),
    alookup_aset_self _ _ _, by simp, List.getLast?_concat _, ?_, ?_, rfl⟩
  · simp [setFieldV, setF, hff]
  · simp [setFieldV, setF]

/-- Witness for C3 at a concrete two-change input. -/
theorem C3_same_checkpoint_coalesce_witness :
    ∃ vs2 lv, alookup C3st2 5 = some vs2 ∧ vs2.length = C3vs.length + 1 ∧
      vs2.getLast? = some lv ∧
      lv.fields ("System_FileOwner") = some (.raw (.str ("bob"))) ∧
      lv.fields ("System_ItemType") = some (.raw (.str ("doc"))) ∧
      lv.checkpointindex = 2 :=
  C3_same_checkpoint_coalesce C3meta 2 C3st C3st1 C3st2 5 10 11
    (some (.str ("bob"))) (some (.str ("doc"))) ("System_FileOwner")
    ("System_ItemType") (some (.raw (.str ("bob")))) (some (.raw (.str ("doc"))))
    C3vs C3v0 rfl rfl (by decide) rfl rfl rfl rfl (by decide) (by decide) rfl rfl

/-- C8: a change tuple (base snapshot or WAL) whose column identifier is
absent from the metadata mapping is dropped without raising and without
altering any version of any work identifier. -/
theorem C8_unknown_columnid (meta : List (Nat × String)) (cidx : Nat)
    (st : PropRecords) (w col : Nat) (rv : Option RawVal)
    (h : alookup meta col = none) :
    apply_change meta cidx st (w, col, rv) = .ok st ∧
    seed_base meta st ⟨w, col, rv⟩ = .ok st := by
  constructor
  · unfold apply_change
    simp [h]
  · unfold seed_base
    simp [h]

/-- Witness for C8: an unmapped column identifier leaves the state alone. -/
theorem C8_unknown_columnid_witness :
    apply_change [(1, "System_Size")] 3 [] (7, 99, some (.int 5)) = .ok [] ∧
    seed_base [(1, "System_Size")] [] ⟨7, 99, some (.int 5)⟩ = .ok [] :=
  C8_unknown_columnid [(1, "System_Size")] 3 [] 7 99 (some (.int 5)) rfl

/-- C2: for every work identifier, the checkpoint-index sequence across its
emitted versions is non-decreasing, and among the emitted records for a
work identifier that has versions, exactly the chronologically last one
carries `latest = true` while every earlier one carries `latest = false`. -/
theorem C2_version_order_and_latest (meta : List (Nat × String))
    (prop_rows : List PropRow) (wal : Option (List Checkpoint))
    (gthr : List (Nat × GthrRec)) (pst : PropRecords) (rows : List MergedRow)
    (w : Nat)
    (hp : sqlite_propstate meta prop_rows wal = .ok pst)
    (he : emit_rows gthr pst = .ok rows) :
    List.Chain' (· ≤ ·)
      ((rows.filter (fun r => r.WorkID == w)).filterMap (fun r => r.checkpointindex)) ∧
    ((rows.filter (fun r => r.WorkID == w)) ≠ [] → alookup pst w ≠ none →
      ((rows.filter (fun r => r.WorkID == w)).getLast?).map (fun r => r.latest) =
        some (some true) ∧
      ∀ r ∈ (rows.filter (fun r => r.WorkID == w)).dropLast, r.latest = some false) := by
  have hinv := sqlite_propstate_inv meta prop_rows wal pst hp
  have hne : ∀ it vs, alookup pst it = some vs → vs ≠ [] :=
    fun it vs hv => (hinv _ (alookup_mem _ _ _ hv)).1
  obtain ⟨mg, mp, hmg, hmp⟩ : ∃ mg mp, keys_max gthr = .ok mg ∧ keys_max pst = .ok mp := by
    unfold emit_rows at he
    split at he
    · cases he
    · rename_i mg hmg
      split at he
      · cases he
      · rename_i mp hmp
        exact ⟨mg, mp, hmg, hmp⟩
  have hfilter := emit_rows_filter gthr pst rows w mg mp hne he hmg hmp
  rw [hfilter]
  by_cases hw : w < Nat.max mg mp
  · rw [if_pos hw]
    cases hpw : alookup pst w with
    | none =>
        constructor
        · cases hgw : alookup gthr w with
          | none => simp [emit_one, hpw, hgw]
          | some g => simp [emit_one, hpw, hgw]
        · intro _ hcontra
          exact absurd rfl hcontra
    | some vs =>
        have hvs := hne w vs hpw
        rw [emit_one_versions gthr pst w vs hpw]
        constructor
        · rw [version_rows_cpx]
          have hvc := (hinv _ (alookup_mem _ _ _ hpw)).2
          unfold VersChain at hvc
          exact List.Chain'.imp (fun a b h => le_of_lt h) hvc
        · intro hne2 _
          exact ⟨version_rows_last w _ vs hvs,
                 fun r hr => version_rows_dropLast w _ vs r hr⟩
  · rw [if_neg hw]
    constructor
    · simp
    · intro hcontra _
      exact absurd rfl hcontra

/-- Witness for C2: a base version plus one WAL change emit two records for
work identifier 5, the last with `latest = true`, the other `latest = false`. -/
theorem C2_version_order_and_latest_witness :
    ((C2rows.filter (fun r => r.WorkID == 5)).getLast?).map (fun r => r.latest) =
      some (some true) ∧
    ∀ r ∈ (C2rows.filter (fun r => r.WorkID == 5)).dropLast, r.latest = some false := by
  have h := C2_version_order_and_latest C2meta C2prop C2wal C2gthr C2pst C2rows 5 rfl rfl
  refine h.2 ?_ ?_
  · intro hnil
    have hmap : (C2rows.filter (fun r => r.WorkID == 5)).map (fun r => r.WorkID) =
        [5, 5] := rfl
    rw [hnil] at hmap
    cases hmap
  · intro hnone
    have hsome : (alookup C2pst 5).isSome = true := rfl
    rw [hnone] at hsome
    cases hsome

/-- C4 (code bug): the emission sweep runs `for iterator in range(max_id)`
(lines 144 and 299), which EXCLUDES `max_id` itself, so the entity whose
work identifier equals the maximum observed across both maps is never
emitted.  Here work identifier 2 is the maximum and carries gatherer data
on both the sqlite and the EDB paths, yet only identifiers 0 and 1 are
emitted. -/
theorem C4_max_workid_dropped :
    (alookup C4gthr 2).isSome = true ∧
    ((emit_rows C4gthr C4pst).toOption.getD []).map (fun r => r.WorkID) = [0, 1] ∧
    (alookup (build_edb_gthr C4erows) 2).isSome = true ∧
    ((get_edb_records C4erows C4eprop).toOption.getD []).map (fun r => r.WorkID) =
      [0, 1] :=
  ⟨rfl, rfl, rfl, rfl⟩

/-- C5 counterexample: work identifier 0 exists only in the gatherer map;
exactly one record is emitted for it, but it carries `latest = None` and
`checkpointindex = None` (the merged dict never receives those keys on the
identity-only path), not `latest = true` and `checkpointindex = 0` as the
claim states.  The contrasting record for identifier 1 (which has a
version) does carry `latest = true`, `checkpointindex = 0`. -/
theorem C5_counterexample :
    C5out.map (fun r => (r.workidF, r.latestF, r.cpxF)) =
      [(0, none, none), (1, some true, some 0)] := rfl

/-- C5 amended: a work identifier with gatherer data, no property-store
versions, and an identifier strictly below the sweep bound is emitted as
exactly one record with identity fields attached, every property field
Absent, and `latest` and `checkpointindex` Absent (None) rather than
`true` and `0`. -/
theorem C5_amended_identity_only (gthr : List (Nat × GthrRec)) (pst : PropRecords)
    (w mg mp : Nat) (rows : List MergedRow)
    (hne : ∀ it vs, alookup pst it = some vs → vs ≠ [])
    (he : emit_rows gthr pst = .ok rows)
    (hg : keys_max gthr = .ok mg) (hp : keys_max pst = .ok mp)
    (hw : w < Nat.max mg mp)
    (hgw : (alookup gthr w).isSome)
    (hpw : alookup pst w = none) :
    rows.filter (fun r => r.WorkID == w) =
      [⟨w, alookup gthr w, fun _ => none, none, none⟩] := by
  rw [emit_rows_filter gthr pst rows w mg mp hne he hg hp, if_pos hw,
      emit_one_identity gthr pst w hpw hgw]

/-- Witness for the amended C5 at the concrete scenario. -/
theorem C5_amended_identity_only_witness :
    C5rows.filter (fun r => r.WorkID == 0) =
      [⟨0, alookup C5gthr 0, fun _ => none, none, none⟩] :=
  C5_amended_identity_only C5gthr C5pst 0 2 1 C5rows
    (by
      intro it vs hv
      unfold C5pst alookup at hv
      split at hv
      · cases hv
        simp
      · cases hv)
    rfl rfl rfl (by decide) rfl rfl

theorem rows_from_frames_invalid (fs1 fs2 : List FrameContent) :
    rows_from_frames (fs1 ++ .invalidPageType :: fs2) = rows_from_frames (fs1 ++ fs2) := by
  induction fs1 with
  | nil => rfl
  | cons a fs1 ih =>
      cases a with
      | invalidPageType => simp only [List.cons_append, List.append_eq, rows_from_frames, ih]
      | page flags cells => simp only [List.cons_append, List.append_eq, rows_from_frames, ih]

theorem rows_from_frames_wrong_flags (fs1 fs2 : List FrameContent)
    (flags : Nat) (cells : List Cell) (hf : flags ≠ 0xA) :
    rows_from_frames (fs1 ++ .page flags cells :: fs2) = rows_from_frames (fs1 ++ fs2) := by
  induction fs1 with
  | nil =>
      simp only [List.nil_append, rows_from_frames]
      rw [if_pos hf]
  | cons a fs1 ih =>
      cases a with
      | invalidPageType => simp only [List.cons_append, List.append_eq, rows_from_frames, ih]
      | page flags' cells' => simp only [List.cons_append, List.append_eq, rows_from_frames, ih]

theorem rows_from_cells_abort (cells : List Cell) (c : Cell) (hc : c ∈ cells)
    (hs : 255 < c.size) : rows_from_cells cells = none := by
  induction cells with
  | nil => cases hc
  | cons a cs ih =>
      rcases List.mem_cons.mp hc with h | h
      · subst h
        simp [rows_from_cells, hs]
      · by_cases ha : 255 < a.size
        · simp [rows_from_cells, ha]
        · simp [rows_from_cells, ha, ih h]

theorem rows_from_frames_abort (fs1 fs2 : List FrameContent) (cells : List Cell)
    (c : Cell) (hc : c ∈ cells) (hs : 255 < c.size) :
    rows_from_frames (fs1 ++ .page 0xA cells :: fs2) = none := by
  induction fs1 with
  | nil =>
      simp only [List.nil_append, rows_from_frames]
      rw [if_neg (by simp), rows_from_cells_abort cells c hc hs]
  | cons a fs1 ih =>
      cases a with
      | invalidPageType => simp only [List.cons_append, List.append_eq, rows_from_frames, ih]
      | page flags' cells' =>
          simp only [List.cons_append, List.append_eq, rows_from_frames]
          by_cases hf : flags' ≠ 0xA
          · rw [if_pos hf, ih]
          · rw [if_neg hf]
            cases h2 : rows_from_cells cells' with
            | none => rfl
            | some rs =>
                rw [ih]
                rfl

/-- C6 counterexample: a checkpoint containing an oversized cell loses ALL
its change tuples — including well-formed cells appearing before the
oversized one and in later frames — while the very same well-formed frames
contribute their tuples when the oversized cell is absent.  The claim's
"only that frame or cell is skipped" is therefore false for oversized
cells. -/
theorem C6_counterexample :
    get_rows_from_checkpoint
        ⟨1, [.page 0xA [C6cellA, C6cellBig], .page 0xA [C6cellB]]⟩ = [] ∧
    get_rows_from_checkpoint ⟨1, [.page 0xA [C6cellA], .page 0xA [C6cellB]]⟩ =
      [C6cellA.values, C6cellB.values] :=
  ⟨rfl, rfl⟩

/-- C6 amended: a frame whose page raises `InvalidPageType` or whose header
flags differ from `0xA` is skipped with the remaining frames of the
checkpoint still contributing; an oversized cell (size above 255) instead
discards the ENTIRE checkpoint's rows (`return []`), after which the replay
continues with subsequent checkpoints from an unchanged state. -/
theorem C6_amended_frame_skips (meta : List (Nat × String)) (st : PropRecords)
    (i : Nat) (fs1 fs2 : List FrameContent) (flags : Nat) (cells : List Cell)
    (c : Cell) :
    (rows_from_frames (fs1 ++ .invalidPageType :: fs2) =
      rows_from_frames (fs1 ++ fs2)) ∧
    (flags ≠ 0xA → rows_from_frames (fs1 ++ .page flags cells :: fs2) =
      rows_from_frames (fs1 ++ fs2)) ∧
    (c ∈ cells → 255 < c.size →
      get_rows_from_checkpoint ⟨i, fs1 ++ .page 0xA cells :: fs2⟩ = [] ∧
      replay_checkpoint meta st ⟨i, fs1 ++ .page 0xA cells :: fs2⟩ = .ok st) := by
  refine ⟨rows_from_frames_invalid fs1 fs2, ?_, ?_⟩
  · intro hf
    exact rows_from_frames_wrong_flags fs1 fs2 flags cells hf
  · intro hc hs
    have habort := rows_from_frames_abort fs1 fs2 cells c hc hs
    constructor
    · unfold get_rows_from_checkpoint
      rw [habort]
      rfl
    · unfold replay_checkpoint get_rows_from_checkpoint
      rw [habort]
      rfl

/-- Witness for the amended C6: all three behaviours at concrete frames. -/
theorem C6_amended_frame_skips_witness :
    (rows_from_frames ([] ++ .invalidPageType :: [.page 0xA [C6cellB]]) =
      rows_from_frames ([] ++ [.page 0xA [C6cellB]])) ∧
    (rows_from_frames ([] ++ .page 7 [C6cellA] :: [.page 0xA [C6cellB]]) =
      rows_from_frames ([] ++ [.page 0xA [C6cellB]])) ∧
    (get_rows_from_checkpoint
        ⟨1, [] ++ .page 0xA [C6cellA, C6cellBig] :: [.page 0xA [C6cellB]]⟩ = [] ∧
     replay_checkpoint [] []
        ⟨1, [] ++ .page 0xA [C6cellA, C6cellBig] :: [.page 0xA [C6cellB]]⟩ = .ok []) :=
  ⟨(C6_amended_frame_skips [] [] 1 [] [.page 0xA [C6cellB]] 7 [C6cellA] C6cellBig).1,
   (C6_amended_frame_skips [] [] 1 [] [.page 0xA [C6cellB]] 7 [C6cellA] C6cellBig).2.1
     (by decide),
   (C6_amended_frame_skips [] [] 1 [] [.page 0xA [C6cellB]] 7
       [C6cellA, C6cellBig] C6cellBig).2.2
     (List.mem_cons_of_mem _ (List.mem_cons_self _ _)) (by decide)⟩

theorem gthr_err_val (a : GthrRow) (e : PyErr) (h : gthr_rec_of_row a = .error e) :
    e = .valueError := by
  unfold gthr_rec_of_row at h
  split at h
  · cases h
  · rename_i bs
    split at h
    · cases h
    · rename_i e' he'
      cases h
      unfold wintimestamp at he'
      split at he'
      · cases he'
      · cases he'
        rfl

theorem build_gthr_loop_err (l : List GthrRow) (r : GthrRow) (hr : r ∈ l)
    (hfail : gthr_rec_of_row r = .error .valueError) :
    ∀ acc, build_gthr_loop acc l = .error .valueError := by
  induction l with
  | nil => cases hr
  | cons a l ih =>
      intro acc
      rcases List.mem_cons.mp hr with h | h
      · subst h
        simp [build_gthr_loop, hfail]
      · cases ha : gthr_rec_of_row a with
        | error e =>
            have he := gthr_err_val a e ha
            subst he
            simp [build_gthr_loop, ha]
        | ok g => simp [build_gthr_loop, ha, ih h]

theorem mem_insertByKey_self {α : Type} (key : α → Nat) (x : α) (l : List α) :
    x ∈ insertByKey key x l := by
  induction l with
  | nil => simp [insertByKey]
  | cons y ys ih =>
      by_cases h : key x < key y
      · simp [insertByKey, h]
      · simp only [insertByKey, if_neg h, List.mem_cons]
        exact Or.inr ih

theorem mem_insertByKey_of_mem {α : Type} (key : α → Nat) (x r : α) (l : List α)
    (h : r ∈ l) : r ∈ insertByKey key x l := by
  induction l with
  | nil => cases h
  | cons y ys ih =>
      by_cases hk : key x < key y
      · simp only [insertByKey, if_pos hk]
        exact List.mem_cons_of_mem _ h
      · simp only [insertByKey, if_neg hk, List.mem_cons]
        rcases List.mem_cons.mp h with h' | h'
        · exact Or.inl h'
        · exact Or.inr (ih h')

theorem mem_sortByKey {α : Type} (key : α → Nat) (r : α) (l : List α)
    (h : r ∈ l) : r ∈ sortByKey key l := by
  induction l with
  | nil => cases h
  | cons a l ih =>
      rcases List.mem_cons.mp h with h' | h'
      · subst h'
        exact mem_insertByKey_self key r (sortByKey key l)
      · exact mem_insertByKey_of_mem key a r (sortByKey key l) (ih h')

/-- C7 counterexample: two failures of the claim.  (1) The gatherer
`LastModified` conversion (lines 180-181) has no `try`/`except`, so an
out-of-range tick count raises `ValueError` out of the whole gatherer pass
instead of yielding Absent.  (2) A wrong-length (here: empty) byte sequence
does not yield Absent on the guarded property-store path either: Python's
`int.from_bytes` accepts any length, so the empty sequence decodes to tick
count 0 and produces a timestamp. -/
theorem C7_counterexample :
    build_gthr [⟨3, some ("x"), some [255, 255, 255, 255, 255, 255, 255, 255], none⟩] =
      .error .valueError ∧
    normalize_change ("System_DateCreated") (some (.bytes [])) = .ok (some (.dt 0)) :=
  ⟨rfl, rfl⟩

/-- C7 amended: on the property-store snapshot and WAL paths, datetime
normalization of a blob never raises — a null value yields Absent, an
out-of-range tick count yields Absent, and any byte length is accepted
(decoded little-endian); the gatherer `LastModified` conversion however is
unguarded, and one failing row makes the whole gatherer pass raise
`ValueError`. -/
theorem C7_amended_datetime_normalization (cname : String) (bs : List Nat)
    (rows : List GthrRow) (r : GthrRow)
    (hd : cname ∈ WIN_DATETIME_FIELDS) :
    (normalize_change cname none = .ok none) ∧
    (wintimestamp (int_from_bytes_le bs) = .error .valueError →
      normalize_change cname (some (.bytes bs)) = .ok none) ∧
    (∀ t, wintimestamp (int_from_bytes_le bs) = .ok t →
      normalize_change cname (some (.bytes bs)) = .ok (some (.dt t))) ∧
    (r ∈ rows → r.LastModified = some bs →
      wintimestamp (int_from_bytes_le bs) = .error .valueError →
      build_gthr rows = .error .valueError) := by
  refine ⟨by simp [normalize_change, hd], ?_, ?_, ?_⟩
  · intro hf
    simp [normalize_change, hd, hf]
  · intro t hf
    simp [normalize_change, hd, hf]
  · intro hr hlm hfail
    have hfail' : gthr_rec_of_row r = .error .valueError := by
      unfold gthr_rec_of_row
      rw [hlm]
      simp only [hfail]
    unfold build_gthr
    exact build_gthr_loop_err _ r
      (mem_sortByKey (fun q => q.DocumentID) r rows hr) hfail' []

/-- Witness for the amended C7 at concrete inputs. -/
theorem C7_amended_datetime_normalization_witness :
    normalize_change ("System_DateCreated")
        (some (.bytes [255, 255, 255, 255, 255, 255, 255, 255])) = .ok none ∧
    build_gthr [⟨3, some ("x"), some [255, 255, 255, 255, 255, 255, 255, 255], none⟩] =
      .error .valueError := by
  have h := C7_amended_datetime_normalization ("System_DateCreated")
    [255, 255, 255, 255, 255, 255, 255, 255]
    [⟨3, some ("x"), some [255, 255, 255, 255, 255, 255, 255, 255], none⟩]
    ⟨3, some ("x"), some [255, 255, 255, 255, 255, 255, 255, 255], none⟩
    (by decide)
  exact ⟨h.2.1 rfl, h.2.2.2 (List.mem_cons_self _ _) rfl rfl⟩

/-- C9 counterexample: the activity output shape passes
`System_ItemPathDisplay` through unchanged, so the emitted
`itempathdisplay` still contains backslashes — no separator normalization
happens on that path-valued field (only the file-information shape's
`filename` is normalized, lines 342-343). -/
theorem C9_counterexample :
    ((emit_all ("db") [C9row]).toOption.getD []).map
        (fun r => r.itempathdisplayF) =
      [some (.raw (.str ("C:\\Users\\p.txt")))] ∧
    ("C:\\Users\\p.txt").data.contains ('\\') = true :=
  ⟨rfl, by decide⟩

/-- C9 amended: only the file-information shape normalizes path
separators — its `filename` is `System_ItemPathDisplay` with every
backslash replaced by a forward slash; the activity shape's
`itempathdisplay` is emitted unchanged. -/
theorem C9_amended_path_normalization (source : String) (mr : MergedRow)
    (s : String) (r : OutRecord)
    (h : emit_record source mr = .ok r)
    (hpath : mr.fields ("System_ItemPathDisplay") = some (.raw (.str s))) :
    (∀ a, r = .activity a → a.itempathdisplay = some (.raw (.str s))) ∧
    (∀ f, r = .fileinfo f → f.filename = some (s.replace ("\\") ("/"))) := by
  unfold emit_record at h
  split at h
  · cases h
    constructor
    · intro a ha
      cases ha
      exact hpath
    · intro f hf
      cases hf
  · split at h
    · cases h
    · rename_i fn hfn
      split at h
      · cases h
      · rename_i asum hasum
        split at h
        · cases h
        · rename_i fa hfa
          split at h
          · cases h
          · rename_i szb hszb
            cases h
            constructor
            · intro a ha
              cases ha
            · intro f hf
              cases hf
              rw [hpath] at hfn
              simp only [pyStrOpt] at hfn
              cases hfn
              rfl

/-- Witness for the amended C9: both output shapes at concrete rows. -/
theorem C9_amended_path_normalization_witness :
    C9out.itempathdisplayF = some (.raw (.str ("C:\\Users\\p.txt"))) ∧
    C9fout.filenameF = some (("C:\\a.txt").replace ("\\") ("/")) := by
  have h1 := C9_amended_path_normalization ("db") C9row ("C:\\Users\\p.txt")
    C9out rfl rfl
  have h2 := C9_amended_path_normalization ("db") C9frow ("C:\\a.txt")
    C9fout rfl rfl
  constructor
  · exact h1.1
      ⟨4, none, none, none, none, none, none,
        some (.raw (.str ("C:\\Users\\p.txt"))),
        some (.raw (.str ("ActivityHistoryItem"))), "db", some true, some 0⟩ rfl
  · exact h2.2
      ⟨8, none, some (("C:\\a.txt").replace ("\\") ("/")), none, none, none,
        none, none, none, none, none, none, "db", none, none⟩ rfl

theorem range_pairwise_lt (n : Nat) : (List.range n).Pairwise (· < ·) := by
  induction n with
  | zero => simp
  | succ n ih =>
      rw [List.range_succ]
      rw [List.pairwise_append]
      refine ⟨ih, by simp, ?_⟩
      intro a ha b hb
      rw [List.mem_range] at ha
      rw [List.mem_singleton] at hb
      subst hb
      exact ha

theorem pairwise_filterMap_workid (f : Nat → Option MergedRow)
    (hf : ∀ i r, f i = some r → r.WorkID = i) (l : List Nat)
    (hl : l.Pairwise (· < ·)) :
    (l.filterMap f).Pairwise (fun a b => a.WorkID ≠ b.WorkID) := by
  induction l with
  | nil => simp
  | cons a l ih =>
      rcases List.pairwise_cons.mp hl with ⟨hal, hl'⟩
      cases hfa : f a with
      | none =>
          simp only [List.filterMap_cons, hfa]
          exact ih hl'
      | some r =>
          simp only [List.filterMap_cons, hfa]
          apply List.pairwise_cons.mpr
          refine ⟨?_, ih hl'⟩
          intro r' hr'
          rcases List.mem_filterMap.mp hr' with ⟨j, hj, hfj⟩
          rw [hf a r hfa, hf j r' hfj]
          exact Nat.ne_of_lt (hal j hj)

theorem forall2_mem_right {α β : Type} {R : α → β → Prop} :
    ∀ {l1 : List α} {l2 : List β}, List.Forall₂ R l1 l2 →
      ∀ b ∈ l2, ∃ a ∈ l1, R a b := by
  intro l1 l2 h
  induction h with
  | nil =>
      intro b hb
      cases hb
  | cons hab hrest ih =>
      intro b' hb'
      rcases List.mem_cons.mp hb' with h' | h'
      · subst h'
        exact ⟨_, by simp, hab⟩
      · rcases ih b' h' with ⟨a', ha', hr⟩
        exact ⟨a', List.mem_cons_of_mem _ ha', hr⟩

theorem pairwise_transfer {α β : Type} (R : α → β → Prop) (P : α → α → Prop)
    (Q : β → β → Prop) (l1 : List α) (l2 : List β)
    (hR : List.Forall₂ R l1 l2) (hp : l1.Pairwise P)
    (himp : ∀ a b a' b', R a a' → R b b' → P a b → Q a' b') :
    l2.Pairwise Q := by
  induction hR with
  | nil => exact List.Pairwise.nil
  | cons hab hrest ih =>
      rename_i a b l1' l2'
      rcases List.pairwise_cons.mp hp with ⟨hal, hp'⟩
      apply List.pairwise_cons.mpr
      refine ⟨?_, ih hp'⟩
      intro b' hb'
      rcases forall2_mem_right hrest b' hb' with ⟨a', ha', hr⟩
      exact himp a a' b b' hab hr (hal a' ha')

theorem emit_all_forall2 (source : String) :
    ∀ (l : List MergedRow) (out : List OutRecord),
      emit_all source l = .ok out →
      List.Forall₂ (fun mr r => emit_record source mr = .ok r) l out := by
  intro l
  induction l with
  | nil =>
      intro out h
      unfold emit_all at h
      cases h
      exact List.Forall₂.nil
  | cons r rs ih =>
      intro out h
      unfold emit_all at h
      split at h
      · cases h
      · rename_i o ho
        split at h
        · cases h
        · rename_i os hos
          cases h
          exact List.Forall₂.cons ho (ih os hos)

theorem emit_record_meta_fields (source : String) (mr : MergedRow) (r : OutRecord)
    (h : emit_record source mr = .ok r) :
    r.workidF = mr.WorkID ∧ r.latestF = mr.latest ∧ r.cpxF = mr.checkpointindex := by
  unfold emit_record at h
  split at h
  · cases h
    exact ⟨rfl, rfl, rfl⟩
  · split at h
    · cases h
    · rename_i fn hfn
      split at h
      · cases h
      · rename_i asum hasum
        split at h
        · cases h
        · rename_i fa hfa
          split at h
          · cases h
          · rename_i szb hszb
            cases h
            exact ⟨rfl, rfl, rfl⟩

theorem get_edb_records_props (g : List EdbGthrRow) (p : List EdbPropRow)
    (rows : List MergedRow) (h : get_edb_records g p = .ok rows) :
    rows.Pairwise (fun a b => a.WorkID ≠ b.WorkID) ∧
    ∀ r ∈ rows, r.latest = none ∧ r.checkpointindex = none := by
  unfold get_edb_records at h
  split at h
  · cases h
  · rename_i mg hmg
    split at h
    · cases h
    · rename_i mp hmp
      cases h
      have hwid : ∀ (i : Nat) (r : MergedRow),
          (fun it =>
            match alookup (build_edb_gthr g) it, alookup (build_edb_prop p) it with
            | none, none => none
            | og, op =>
                some ⟨it, og.map (fun q => ⟨none, q.LastModified, q.SDID⟩),
                      (fun f => match op with
                                | some q => q.fields f
                                | none => none),
                      none, none⟩) i = some r →
          r.WorkID = i ∧ r.latest = none ∧ r.checkpointindex = none := by
        intro i r hir
        cases hg2 : alookup (build_edb_gthr g) i with
        | none =>
            cases hp2 : alookup (build_edb_prop p) i with
            | none =>
                simp only [hg2, hp2] at hir
                cases hir
            | some q =>
                simp only [hg2, hp2] at hir
                cases hir
                exact ⟨rfl, rfl, rfl⟩
        | some q =>
            cases hp2 : alookup (build_edb_prop p) i with
            | none =>
                simp only [hg2, hp2] at hir
                cases hir
                exact ⟨rfl, rfl, rfl⟩
            | some q' =>
                simp only [hg2, hp2] at hir
                cases hir
                exact ⟨rfl, rfl, rfl⟩
      constructor
      · apply pairwise_filterMap_workid _ (fun i r hir => (hwid i r hir).1)
        exact range_pairwise_lt _
      · intro r hr
        rcases List.mem_filterMap.mp hr with ⟨i, hi, hfi⟩
        exact ⟨(hwid i r hfi).2.1, (hwid i r hfi).2.2⟩

/-- C10: on the EDB path every work identifier yields at most one emitted
record (all emitted work identifiers are pairwise distinct), and each
emitted record's `latest` and `checkpointindex` are Absent (None): the EDB
path builds no version history and never consults a WAL. -/
theorem C10_edb_no_versions (source : String) (g : List EdbGthrRow)
    (p : List EdbPropRow) (out : List OutRecord)
    (h : edb_searchindex source g p = .ok out) :
    out.Pairwise (fun a b => a.workidF ≠ b.workidF) ∧
    ∀ r ∈ out, r.latestF = none ∧ r.cpxF = none := by
  unfold edb_searchindex at h
  split at h
  · cases h
  · rename_i rows hrows
    have hprops := get_edb_records_props g p rows hrows
    have hf2 := emit_all_forall2 source rows out h
    constructor
    · refine pairwise_transfer _ _ _ rows out hf2 hprops.1 ?_
      intro a b a' b' ha hb hne
      rw [(emit_record_meta_fields source a a' ha).1,
          (emit_record_meta_fields source b b' hb).1]
      exact hne
    · intro r hr
      rcases forall2_mem_right hf2 r hr with ⟨mr, hmr, hrec⟩
      have hm := emit_record_meta_fields source mr r hrec
      have hp2 := hprops.2 mr hmr
      exact ⟨hm.2.1.trans hp2.1, hm.2.2.trans hp2.2⟩

/-- Witness for C10 at a concrete EDB input. -/
theorem C10_edb_no_versions_witness :
    C10out.Pairwise (fun a b => a.workidF ≠ b.workidF) ∧
    ∀ r ∈ C10out, r.latestF = none ∧ r.cpxF = none :=
  C10_edb_no_versions ("edb") C10g C10p C10out rfl
